import Mathlib

/-!
# HytaleLauncher offline — verification of spec claims

Shallow embedding of the launcher's update/state components, translated
from the Go sources, with theorems settling the frozen claims about them.

Components embedded here:
* Go `path/filepath` lexical path cleaning (used by the archive extractor),
* `internal/extract` (`safePath`, the tar.gz extraction loop),
* `internal/crypto` (`Encrypt` / `Decrypt`, AES-GCM kept abstract),
* `internal/appstate` (`Load` / `Save` / `validatePlatform`),
* `internal/throttle` (`ProgressGate.Update`),
* `internal/download` (`DownloadTemp` / `downloadFile`),
* `internal/ioutil.Get` request construction and `hytale.SetUserAgent`,
* `internal/auth` (`watchTokenSource.Token`, `Controller.tokenChanged`),
* `internal/playerprofile` (`GetOrCreateProfile` / `GetUUID`, with a full
  SHA-1 model of `uuid.NewSHA1`),
* `internal/repair` (`verifyFile` / `Verify` / `Result.IsHealthy`),
* `internal/selfupdate` (`consumeCleanupNote`).

Machine bytes are modelled as `Nat` values below 256, byte strings as
`List Nat`; fallible Go functions return `Except`; filesystem and HTTP
effects are passed explicitly as state.
-/

deriving instance DecidableEq for Except

namespace Launcher

/-! ## Go `path/filepath` (POSIX), lexical operations

`filepath.Clean` applies Go's lexical cleaning rules: collapse multiple
separators, drop `.` components, resolve `..` against preceding
components (dropping `..` at the root), and return `.` for an empty
result.  The implementation below is the standard stack formulation of
that algorithm; separators are `/` as on the POSIX platforms the
launcher targets. -/

namespace Filepath

/-- Split a character list at every `/`, keeping empty components, as
`strings.Split(path, "/")` does. -/
def splitSlash : List Char → List (List Char)
  | [] => [[]]
  | c :: rest =>
    match splitSlash rest with
    | [] => [[]]
    | h :: t => if c = '/' then [] :: h :: t else (c :: h) :: t

/-- Join components with `/` separators (inverse of `splitSlash` for
slash-free components). -/
def intercalateSlash : List (List Char) → List Char
  | [] => []
  | [x] => x
  | x :: rest => x ++ '/' :: intercalateSlash rest

/-- One step of Go `filepath.Clean`: push a single path component onto the
stack of already-cleaned components (held in reverse order).  Empty and
`.` components are dropped; `..` pops a poppable component, is dropped at
the root, and accumulates otherwise. -/
def cleanPush (rooted : Bool) (stack : List (List Char)) (c : List Char) :
    List (List Char) :=
  if c = [] ∨ c = ['.'] then stack
  else if c = ['.', '.'] then
    match stack with
    | [] => if rooted then [] else [['.', '.']]
    | top :: rest => if top = ['.', '.'] then c :: top :: rest else rest
  else c :: stack

/-- Go `filepath.Clean` on the characters of a POSIX path. -/
def cleanChars (l : List Char) : List Char :=
  if l = [] then ['.']
  else
    let rooted := l.head? = some '/'
    let comps := (splitSlash l).foldl (cleanPush rooted) []
    let body := intercalateSlash comps.reverse
    if rooted then '/' :: body
    else if body = [] then ['.'] else body

/-- Go `filepath.Clean` on a POSIX path. -/
def clean (path : String) : String :=
  String.mk (cleanChars path.data)

/-- Go `filepath.Join` on two POSIX path elements: empty elements are
dropped, the rest are joined with `/` and the result is cleaned. -/
def join (a b : String) : String :=
  if a = "" then
    if b = "" then "" else clean b
  else String.mk (cleanChars (a.data ++ '/' :: b.data))

/-- `strings.HasPrefix` on character lists. -/
def hasPrefixL : List Char → List Char → Bool
  | [], _ => true
  | _ :: _, [] => false
  | a :: as, b :: bs => a = b && hasPrefixL as bs

end Filepath

/-! ## `internal/extract` — archive path safety -/

namespace Extract

/-- `extract.StripRootDir`: drop the first path component; empty if the
name has no separator. -/
def StripRootDir (path : String) : String :=
  match path.splitOn "/" with
  | [] => ""
  | [_] => ""
  | _ :: rest => "/".intercalate rest

/-- `extract.safePath`: join `name` onto `destDir` and accept the result
only if its cleaned form equals the cleaned destination or starts with the
cleaned destination followed by the separator.  The Go source binds
`fullPath := Join(destDir, name)`, `cleanDest := Clean(destDir) + "/"`,
`cleanFull := Clean(fullPath)`; those bindings are inlined here. -/
def safePath (destDir name : String) : Except String String :=
  if Filepath.hasPrefixL ((Filepath.clean destDir).data ++ ['/'])
        (Filepath.clean (Filepath.join destDir name)).data
      ∨ Filepath.clean (Filepath.join destDir name) = Filepath.clean destDir then
    .ok (Filepath.join destDir name)
  else
    .error ("illegal file path in archive: " ++ name)

/-- Tar entry type flags relevant to `extractTarGz`: directories and
regular files are materialised, anything else is skipped. -/
inductive TypeFlag
  | dir
  | reg
  | other
deriving DecidableEq, Repr

/-- A tar header as consumed by `extractTarGz`. -/
structure TarHeader where
  name : String
  typeflag : TypeFlag
deriving DecidableEq, Repr

/-- Outcome of an extraction: the destination paths written (directories
created and regular files extracted, in order) and the error that aborted
the run, if any. -/
structure ExtractResult where
  writes : List String
  err : Option String
deriving DecidableEq, Repr

/-- The optional name transformer applied to each member name. -/
def effectiveName (tr : Option (String → String)) (n : String) : String :=
  match tr with
  | some f => f n
  | none => n

/-- The member loop of `extract.extractTarGz`: transform each name, skip
empty results, validate through `safePath` (aborting on failure), and
write directories and regular files at the validated destination.
Filesystem primitives (`MkdirAll`, `OpenFile`, `io.Copy`) are modelled as
succeeding; their results are recorded in `writes`. -/
def extractTarGz (destDir : String) (tr : Option (String → String)) :
    List TarHeader → List String → ExtractResult
  | [], acc => ⟨acc.reverse, none⟩
  | h :: rest, acc =>
    let name := effectiveName tr h.name
    if name = "" then extractTarGz destDir tr rest acc
    else
      match safePath destDir name with
      | .error e => ⟨acc.reverse, some e⟩
      | .ok destPath =>
        match h.typeflag with
        | .dir => extractTarGz destDir tr rest (destPath :: acc)
        | .reg => extractTarGz destDir tr rest (destPath :: acc)
        | .other => extractTarGz destDir tr rest acc

/-- The containment condition that `safePath` enforces on the cleaned
candidate path `p` relative to `destDir`. -/
def Contained (destDir p : String) : Prop :=
  Filepath.hasPrefixL ((Filepath.clean destDir).data ++ ['/'])
      (Filepath.clean p).data
    ∨ Filepath.clean p = Filepath.clean destDir

instance (destDir p : String) : Decidable (Contained destDir p) := by
  unfold Contained; infer_instance

theorem safePath_ok (d n p : String) (h : safePath d n = .ok p) :
    p = Filepath.join d n ∧ Contained d (Filepath.join d n) := by
  unfold safePath at h
  split at h
  · exact ⟨by cases h; rfl, by assumption⟩
  · cases h

theorem safePath_error (d n e : String) (h : safePath d n = .error e) :
    e = "illegal file path in archive: " ++ n ∧ ¬ Contained d (Filepath.join d n) := by
  unfold safePath at h
  split at h
  · cases h
  · exact ⟨by cases h; rfl, by assumption⟩

/-- Every path recorded by the extraction loop satisfies the containment
condition, provided the accumulator already does. -/
theorem extractTarGz_writes_contained (d : String) (tr : Option (String → String)) :
    ∀ (entries : List TarHeader) (acc : List String),
      (∀ p ∈ acc, Contained d p) →
      ∀ p ∈ (extractTarGz d tr entries acc).writes, Contained d p := by
  intro entries
  induction entries with
  | nil =>
    intro acc hacc p hp
    simp only [extractTarGz] at hp
    exact hacc p (List.mem_reverse.mp hp)
  | cons h rest ih =>
    intro acc hacc p hp
    simp only [extractTarGz] at hp
    split at hp
    · exact ih acc hacc p hp
    · rcases hsp : safePath d (effectiveName tr h.name) with e | q
      all_goals rw [hsp] at hp
      · simp only at hp
        exact hacc p (List.mem_reverse.mp hp)
      · have hq := (safePath_ok d _ q hsp).2
        have hq' : Contained d q := by
          rw [(safePath_ok d _ q hsp).1]; exact hq
        rcases htf : h.typeflag
        all_goals rw [htf] at hp; simp only at hp
        · refine ih (q :: acc) ?_ p hp
          intro r hr
          rcases List.mem_cons.mp hr with rfl | hr
          · exact hq'
          · exact hacc r hr
        · refine ih (q :: acc) ?_ p hp
          intro r hr
          rcases List.mem_cons.mp hr with rfl | hr
          · exact hq'
          · exact hacc r hr
        · exact ih acc hacc p hp

/-- If some entry has a non-empty transformed name that `safePath`
rejects, the extraction loop aborts with a path-escape error. -/
theorem extractTarGz_err_of_offender (d : String) (tr : Option (String → String)) :
    ∀ (entries : List TarHeader) (acc : List String) (hdr : TarHeader),
      hdr ∈ entries →
      effectiveName tr hdr.name ≠ "" →
      ¬ Contained d (Filepath.join d (effectiveName tr hdr.name)) →
      ∃ n, (extractTarGz d tr entries acc).err =
        some ("illegal file path in archive: " ++ n) := by
  intro entries
  induction entries with
  | nil => intro acc hdr hmem; cases hmem
  | cons h rest ih =>
    intro acc hdr hmem hne hbad
    rcases List.mem_cons.mp hmem with rfl | hmem
    · simp only [extractTarGz]
      rw [if_neg hne]
      rcases hsp : safePath d (effectiveName tr hdr.name) with e | q
      · exact ⟨effectiveName tr hdr.name, by
          simp only [(safePath_error d _ e hsp).1]⟩
      · exact absurd (safePath_ok d _ q hsp).2 hbad
    · simp only [extractTarGz]
      split
      · exact ih acc hdr hmem hne hbad
      · rcases hsp : safePath d (effectiveName tr h.name) with e | q
        · exact ⟨effectiveName tr h.name, by
            simp only [(safePath_error d _ e hsp).1]⟩
        · rcases htf : h.typeflag
          all_goals simp only
          · exact ih _ hdr hmem hne hbad
          · exact ih _ hdr hmem hne hbad
          · exact ih acc hdr hmem hne hbad

end Extract

/-- C2: Archive extraction path safety — for every archive member (after
the optional rename transformation), the tar.gz extraction loop writes the
member only if the cleaned destination path equals `destDir` or starts
with `destDir` followed by the path separator; a member whose transformed
non-empty name violates that containment makes the extraction abort with
a path-escape ("illegal file path in archive") error, and that member's
destination path is never written. -/
theorem C2_extract_path_safety (destDir : String) (tr : Option (String → String))
    (entries : List Extract.TarHeader) (hclean : Filepath.clean destDir = destDir) :
    (∀ p ∈ (Extract.extractTarGz destDir tr entries []).writes,
        Filepath.clean p = destDir
          ∨ Filepath.hasPrefixL (destDir.data ++ ['/']) (Filepath.clean p).data) ∧
    (∀ hdr ∈ entries,
        Extract.effectiveName tr hdr.name ≠ "" →
        ¬ Extract.Contained destDir
            (Filepath.join destDir (Extract.effectiveName tr hdr.name)) →
        (∃ n, (Extract.extractTarGz destDir tr entries []).err =
            some ("illegal file path in archive: " ++ n)) ∧
        Filepath.join destDir (Extract.effectiveName tr hdr.name) ∉
          (Extract.extractTarGz destDir tr entries []).writes) := by
  have hsafe := Extract.extractTarGz_writes_contained destDir tr entries []
    (by intro p hp; cases hp)
  constructor
  · intro p hp
    have hc := hsafe p hp
    unfold Extract.Contained at hc
    rw [hclean] at hc
    exact hc.symm
  · intro hdr hmem hne hbad
    refine ⟨Extract.extractTarGz_err_of_offender destDir tr entries [] hdr hmem hne hbad, ?_⟩
    intro hw
    exact hbad (hsafe _ hw)

/-- C2 witness: a concrete extraction with one safe member and one
escaping member; the safe member's path is contained and the escaping
member aborts the run without being written. -/
theorem C2_extract_path_safety_witness :
    (∀ p ∈ (Extract.extractTarGz "/dest" none
        [⟨"sub/ok.txt", Extract.TypeFlag.reg⟩, ⟨"../evil", Extract.TypeFlag.reg⟩] []).writes,
        Filepath.clean p = "/dest"
          ∨ Filepath.hasPrefixL ("/dest".data ++ ['/']) (Filepath.clean p).data) ∧
    (∀ hdr ∈ [(⟨"sub/ok.txt", Extract.TypeFlag.reg⟩ : Extract.TarHeader),
        ⟨"../evil", Extract.TypeFlag.reg⟩],
        Extract.effectiveName none hdr.name ≠ "" →
        ¬ Extract.Contained "/dest"
            (Filepath.join "/dest" (Extract.effectiveName none hdr.name)) →
        (∃ n, (Extract.extractTarGz "/dest" none
            [⟨"sub/ok.txt", Extract.TypeFlag.reg⟩, ⟨"../evil", Extract.TypeFlag.reg⟩] []).err =
            some ("illegal file path in archive: " ++ n)) ∧
        Filepath.join "/dest" (Extract.effectiveName none hdr.name) ∉
          (Extract.extractTarGz "/dest" none
            [⟨"sub/ok.txt", Extract.TypeFlag.reg⟩, ⟨"../evil", Extract.TypeFlag.reg⟩] []).writes) :=
  C2_extract_path_safety "/dest" none
    [⟨"sub/ok.txt", Extract.TypeFlag.reg⟩, ⟨"../evil", Extract.TypeFlag.reg⟩] (by decide)

/-! ## `internal/crypto` — encrypted blob framing

`Encrypt`/`Decrypt` from `internal/crypto/crypto.go`.  The AES-GCM AEAD
obtained from `cipher.NewGCM(aes.NewCipher(key))` is Go-library code and
is kept abstract: a `GCM` record supplies the nonce size and the
seal/open functions, and `GCMCorrect` states the library's contract that
open inverts seal.  Bytes are `Nat`s; the marker byte `'E'` is 69. -/

namespace Crypto

/-- Abstract AES-GCM AEAD: nonce size plus seal/open, each taking the
key, the nonce and the payload.  `sealGCM key nonce m` returns the
ciphertext-with-tag that Go's `gcm.Seal` appends to its `dst` argument. -/
structure GCM where
  nonceSize : Nat
  sealGCM : List Nat → List Nat → List Nat → List Nat
  openGCM : List Nat → List Nat → List Nat → Option (List Nat)

/-- The AEAD contract: opening a sealed payload with the same key and
nonce recovers the payload. -/
def GCMCorrect (g : GCM) : Prop :=
  ∀ key nonce m, g.openGCM key nonce (g.sealGCM key nonce m) = some m

/-- `aes.NewCipher` accepts exactly 16-, 24- or 32-byte keys. -/
def validKeySize (n : Nat) : Bool :=
  n == 16 || n == 24 || n == 32

/-- Errors produced by `Encrypt`/`Decrypt`. -/
inductive CryptoError
  | keySize (n : Nat)
  | ciphertextTooShort
  | authFailed
deriving DecidableEq, Repr

/-- `crypto.Encrypt`: in dev mode return the plaintext unchanged;
otherwise seal with a fresh nonce (passed here as a parameter) and
prefix marker byte `'E'`.  Go's `gcm.Seal(nonce, nonce, data, nil)`
returns `nonce ++ ciphertext`, so the file layout is
`'E' | nonce | ciphertext`. -/
def Encrypt (release : String) (g : GCM) (key nonce data : List Nat) :
    Except CryptoError (List Nat) :=
  if release = "dev" then .ok data
  else if validKeySize key.length then
    .ok (69 :: (nonce ++ g.sealGCM key nonce data))
  else .error (.keySize key.length)

/-- `crypto.Decrypt`: data without the `'E'` marker is returned verbatim;
otherwise strip the marker, split off the nonce and open. -/
def Decrypt (g : GCM) (data key : List Nat) : Except CryptoError (List Nat) :=
  match data with
  | [] => .ok []
  | b :: rest =>
    if b ≠ 69 then .ok (b :: rest)
    else if validKeySize key.length then
      if rest.length < g.nonceSize then .error .ciphertextTooShort
      else
        match g.openGCM key (rest.take g.nonceSize) (rest.drop g.nonceSize) with
        | some m => .ok m
        | none => .error .authFailed
    else .error (.keySize key.length)

/-- A concrete AEAD instance used for witnesses: seal is the identity on
the payload and open returns the ciphertext. -/
def gcmId : GCM where
  nonceSize := 12
  sealGCM := fun _ _ m => m
  openGCM := fun _ _ c => some c

theorem gcmId_correct : GCMCorrect gcmId := fun _ _ _ => rfl

end Crypto

/-- C3 counterexample: in dev mode, `Encrypt` returns the plaintext
unchanged, so a plaintext that itself begins with the marker byte `'E'`
(69) is mistaken for an encrypted blob by `Decrypt`, which then fails
with "ciphertext too short" instead of returning the plaintext: the
claimed unconditional round-trip `Decrypt (Encrypt m k) k = m` is false. -/
theorem C3_roundtrip_counterexample :
    Crypto.GCMCorrect Crypto.gcmId ∧
    Crypto.Encrypt "dev" Crypto.gcmId (List.replicate 32 0) (List.replicate 12 0) [69] =
      .ok [69] ∧
    Crypto.Decrypt Crypto.gcmId [69] (List.replicate 32 0) =
      .error .ciphertextTooShort ∧
    Crypto.Decrypt Crypto.gcmId [69] (List.replicate 32 0) ≠ .ok [69] :=
  ⟨Crypto.gcmId_correct, by decide, by decide, by decide⟩

/-- C3 amended: for every correct AEAD, 32-byte key and nonce of the
AEAD's nonce size, `Decrypt (Encrypt m k) k = m` holds whenever the build
mode is not dev, or the plaintext is empty or does not begin with the
marker byte `'E'`; and in dev mode `Encrypt` returns the plaintext
unchanged (no marker, no ciphertext). -/
theorem C3_encrypt_decrypt (g : Crypto.GCM) (hg : Crypto.GCMCorrect g)
    (release : String) (key nonce m : List Nat)
    (hkey : key.length = 32) (hnonce : nonce.length = g.nonceSize)
    (hm : release ≠ "dev" ∨ m = [] ∨ m.head? ≠ some 69) :
    (∃ c, Crypto.Encrypt release g key nonce m = .ok c ∧
        Crypto.Decrypt g c key = .ok m) ∧
    (release = "dev" → Crypto.Encrypt release g key nonce m = .ok m) := by
  have hvalid : Crypto.validKeySize key.length = true := by
    simp [Crypto.validKeySize, hkey]
  by_cases hdev : release = "dev"
  · have henc : Crypto.Encrypt release g key nonce m = .ok m := by
      simp [Crypto.Encrypt, hdev]
    refine ⟨⟨m, henc, ?_⟩, fun _ => henc⟩
    match m, hm with
    | [], _ => rfl
    | b :: rest, hm =>
      have hb : b ≠ 69 := by
        rcases hm with h | h | h
        · exact absurd hdev h
        · cases h
        · simpa using h
      simp [Crypto.Decrypt, hb]
  · have henc : Crypto.Encrypt release g key nonce m =
        .ok (69 :: (nonce ++ g.sealGCM key nonce m)) := by
      simp [Crypto.Encrypt, hdev, hvalid]
    refine ⟨⟨_, henc, ?_⟩, fun h => absurd h hdev⟩
    have hlen : ¬ (nonce ++ g.sealGCM key nonce m).length < g.nonceSize := by
      rw [List.length_append, ← hnonce]; omega
    have htake : (nonce ++ g.sealGCM key nonce m).take g.nonceSize = nonce := by
      rw [← hnonce]; exact List.take_left nonce _
    have hdrop : (nonce ++ g.sealGCM key nonce m).drop g.nonceSize =
        g.sealGCM key nonce m := by
      rw [← hnonce]; exact List.drop_left nonce _
    show Crypto.Decrypt g (69 :: (nonce ++ g.sealGCM key nonce m)) key = .ok m
    simp only [Crypto.Decrypt]
    rw [if_neg (by simp), if_pos hvalid, if_neg hlen, htake, hdrop, hg key nonce m]

/-- C3 witness: the amended round-trip evaluated on a release-mode
encryption of a concrete plaintext under the witness AEAD. -/
theorem C3_encrypt_decrypt_witness :
    (∃ c, Crypto.Encrypt "release" Crypto.gcmId (List.replicate 32 0)
        (List.replicate 12 0) [1, 2, 3] = .ok c ∧
        Crypto.Decrypt Crypto.gcmId c (List.replicate 32 0) = .ok [1, 2, 3]) ∧
    ("release" = "dev" → Crypto.Encrypt "release" Crypto.gcmId (List.replicate 32 0)
        (List.replicate 12 0) [1, 2, 3] = .ok [1, 2, 3]) :=
  C3_encrypt_decrypt Crypto.gcmId Crypto.gcmId_correct "release"
    (List.replicate 32 0) (List.replicate 12 0) [1, 2, 3]
    (by decide) (by decide) (Or.inl (by decide))

/-! ## `internal/appstate` — per-channel launcher state

`Load`, `Save` and `validatePlatform` are translated from
`internal/appstate/io.go`.  The `State` struct itself is repository code
not among the provided sources, so its fields are modelled from the
spec's data model (§3).  The JSON/encryption byte layer (`json.Marshal`,
`crypto.WriteFile`) is represented by the structured document
`StateJSON`; the encryption layer's transparency is the subject of the
C3 theorems. -/

namespace AppState

/-- `build.Platform`: an (os, arch) pair. -/
structure Platform where
  os : String
  arch : String
deriving DecidableEq, Repr

/-- Modelled from the spec: the Dependency record of the data model (§3);
the Go struct definition is not among the provided sources. -/
structure Dependency where
  name : String
  version : String
  buildId : Int
  path : String
deriving DecidableEq, Repr

/-- Modelled from the spec: the per-channel AppState record (§3); the Go
struct definition is not among the provided sources.  `platform` is a
pointer in the source (`validatePlatform` checks it for nil), hence
optional here.  Per the spec, `isNew` is "never serialized in a stable
field". -/
structure State where
  channel : String
  isNew : Bool
  platform : Option Platform
  dependencies : List (String × Dependency)
  offlineReady : Bool
deriving DecidableEq, Repr

/-- The serialized document of a `State`: every field except `isNew`,
which the spec says is never serialized. -/
structure StateJSON where
  channel : String
  platform : Option Platform
  dependencies : List (String × Dependency)
  offlineReady : Bool
deriving DecidableEq, Repr

/-- `json.Marshal` of a `State`. -/
def marshalState (s : State) : StateJSON :=
  ⟨s.channel, s.platform, s.dependencies, s.offlineReady⟩

/-- `json.Unmarshal` of a state document into `&State{Channel: channel}`:
every serialized field overwrites the target, and `isNew` keeps Go's zero
value `false`. -/
def unmarshalState (j : StateJSON) : State :=
  ⟨j.channel, false, j.platform, j.dependencies, j.offlineReady⟩

/-- Errors `appstate.Load` can produce in this model. -/
inductive LoadError
  | notFound
  | platformMismatch (saved current : Platform)
deriving DecidableEq, Repr

/-- `appstate.validatePlatform`: a nil platform passes; a recorded
platform must equal the current platform. -/
def validatePlatform (s : State) (current : Platform) : Option LoadError :=
  match s.platform with
  | none => none
  | some p => if p = current then none else some (.platformMismatch p current)

/-- `appstate.State.Save` / `writeFile` at the level of the decrypted
state-file content: marshal the state. -/
def Save (s : State) : StateJSON :=
  marshalState s

/-- `appstate.New`: a fresh state for a channel on the current platform,
flagged as new. -/
def New (channel : String) (current : Platform) : State :=
  { channel := channel, isNew := true, platform := some current,
    dependencies := [], offlineReady := false }

/-- `appstate.Load`: read the channel's state file (given here already
decrypted; `none` models a missing file), unmarshal it, then validate the
recorded platform against the current one. -/
def Load (file : Option StateJSON) (current : Platform) : Except LoadError State :=
  match file with
  | none => .error .notFound
  | some j =>
    match validatePlatform (unmarshalState j) current with
    | some e => .error e
    | none => .ok (unmarshalState j)

end AppState

/-- C1 counterexample: a state whose platform field is nil (the Go
`Platform` pointer unset) loads back successfully on any current
platform, because `validatePlatform` accepts a nil platform — so
"`load(save(s), p) = s` exactly when `s.platform == p`" fails: here the
load succeeds and returns `s` although `s.platform` is not the current
platform. -/
theorem C1_roundtrip_counterexample :
    AppState.Load (some (AppState.Save ⟨"release", false, none, [], false⟩))
        ⟨"linux", "amd64"⟩ = .ok ⟨"release", false, none, [], false⟩ ∧
    (⟨"release", false, none, [], false⟩ : AppState.State).platform ≠
      some ⟨"linux", "amd64"⟩ := by
  exact ⟨rfl, by decide⟩

/-- C1 amended: `load(save(s), p)` returns `s` with `isNew` cleared
(`isNew` is never serialized) exactly when `s.platform` is unset or
equals the current platform `p`; when a recorded platform differs from
`p`, `Load` fails with a platform-mismatch integrity error. -/
theorem C1_state_roundtrip (s : AppState.State) (p : AppState.Platform) :
    (AppState.Load (some (AppState.Save s)) p = .ok { s with isNew := false }
      ↔ (s.platform = none ∨ s.platform = some p)) ∧
    (∀ q, s.platform = some q → q ≠ p →
      AppState.Load (some (AppState.Save s)) p =
        .error (.platformMismatch q p)) := by
  constructor
  · rcases hp : s.platform with _ | q
    · simp [AppState.Load, AppState.Save, AppState.marshalState,
        AppState.unmarshalState, AppState.validatePlatform, hp]
    · by_cases hq : q = p
      · subst hq
        simp [AppState.Load, AppState.Save, AppState.marshalState,
          AppState.unmarshalState, AppState.validatePlatform, hp]
      · simp [AppState.Load, AppState.Save, AppState.marshalState,
          AppState.unmarshalState, AppState.validatePlatform, hp, hq]
  · intro q hq hqp
    simp [AppState.Load, AppState.Save, AppState.marshalState,
      AppState.unmarshalState, AppState.validatePlatform, hq, hqp]

/-- C1 witness: a state with a recorded platform round-trips (with
`isNew` cleared) on the matching platform, and fails with the
platform-mismatch error on a different platform. -/
theorem C1_state_roundtrip_witness :
    AppState.Load
        (some (AppState.Save ⟨"release", true, some ⟨"linux", "amd64"⟩, [], true⟩))
        ⟨"linux", "amd64"⟩ =
      .ok ⟨"release", false, some ⟨"linux", "amd64"⟩, [], true⟩ ∧
    AppState.Load
        (some (AppState.Save ⟨"release", true, some ⟨"linux", "amd64"⟩, [], true⟩))
        ⟨"linux", "arm64"⟩ =
      .error (.platformMismatch ⟨"linux", "amd64"⟩ ⟨"linux", "arm64"⟩) :=
  ⟨(C1_state_roundtrip ⟨"release", true, some ⟨"linux", "amd64"⟩, [], true⟩
      ⟨"linux", "amd64"⟩).1.mpr (Or.inr rfl),
    (C1_state_roundtrip ⟨"release", true, some ⟨"linux", "amd64"⟩, [], true⟩
      ⟨"linux", "arm64"⟩).2 ⟨"linux", "amd64"⟩ rfl (by decide)⟩

/-! ## `internal/throttle` — the progress gate

`ProgressGate.Update` from `internal/throttle/gate.go`.  Go's `float64`
progress values are modelled as rationals. -/

namespace Throttle

/-- `throttle.ProgressGate`: stores the last reported progress. -/
structure ProgressGate where
  last : ℚ
deriving DecidableEq

/-- `ProgressGate.Update`: emit (and record) boundary values `< 0.01` and
`≥ 0.99` always; otherwise suppress changes of less than `0.01` since the
last emitted value.  Returns the emit decision and the updated gate. -/
def ProgressGate.Update (g : ProgressGate) (progress : ℚ) : Bool × ProgressGate :=
  if progress < 1/100 ∨ 99/100 ≤ progress then (true, ⟨progress⟩)
  else if progress - g.last < 1/100 then (false, g)
  else (true, ⟨progress⟩)

/-- The subsequence of raw progress values for which `Update` returns
`true`, feeding the sequence through the gate from state `g`. -/
def emitted (g : ProgressGate) : List ℚ → List ℚ
  | [] => []
  | p :: ps =>
    let r := ProgressGate.Update g p
    if r.1 then p :: emitted r.2 ps else emitted r.2 ps

theorem emitted_cons (g : ProgressGate) (p : ℚ) (ps : List ℚ) :
    emitted g (p :: ps) =
      if p < 1/100 ∨ 99/100 ≤ p then p :: emitted ⟨p⟩ ps
      else if p - g.last < 1/100 then emitted g ps
      else p :: emitted ⟨p⟩ ps := by
  by_cases h1 : p < 1/100 ∨ 99/100 ≤ p
  · rw [if_pos h1]
    simp only [emitted, ProgressGate.Update]
    rw [if_pos h1]
    rfl
  · rw [if_neg h1]
    by_cases h2 : p - g.last < 1/100
    · rw [if_pos h2]
      simp only [emitted, ProgressGate.Update]
      rw [if_neg h1, if_pos h2]
      rfl
    · rw [if_neg h2]
      simp only [emitted, ProgressGate.Update]
      rw [if_neg h1, if_neg h2]
      rfl

/-- The emitted subsequence is a sublist of the input sequence. -/
theorem emitted_sublist (input : List ℚ) :
    ∀ g : ProgressGate, List.Sublist (emitted g input) input := by
  induction input with
  | nil => intro g; simp [emitted]
  | cons p ps ih =>
    intro g
    rw [emitted_cons]
    by_cases h1 : p < 1/100 ∨ 99/100 ≤ p
    · rw [if_pos h1]; exact (ih ⟨p⟩).cons₂ p
    · rw [if_neg h1]
      by_cases h2 : p - g.last < 1/100
      · rw [if_pos h2]; exact (ih g).cons p
      · rw [if_neg h2]; exact (ih ⟨p⟩).cons₂ p

/-- Every emitted value is below `0.01`, at or above `0.99`, or at least
`0.01` above the previously emitted value (anchored at the gate's
starting `last`). -/
theorem emitted_chain (input : List ℚ) :
    ∀ l : ℚ, List.Chain (fun a b => b < 1/100 ∨ 99/100 ≤ b ∨ a + 1/100 ≤ b) l
      (emitted ⟨l⟩ input) := by
  induction input with
  | nil => intro l; simp [emitted]
  | cons p ps ih =>
    intro l
    rw [emitted_cons]
    by_cases h1 : p < 1/100 ∨ 99/100 ≤ p
    · rw [if_pos h1]
      exact List.Chain.cons (by rcases h1 with h | h; exacts [Or.inl h, Or.inr (Or.inl h)])
        (ih p)
    · rw [if_neg h1]
      by_cases h2 : p - (⟨l⟩ : ProgressGate).last < 1/100
      · rw [if_pos h2]; exact ih l
      · rw [if_neg h2]
        refine List.Chain.cons (Or.inr (Or.inr ?_)) (ih p)
        simp only [ProgressGate.last] at h2
        linarith [not_lt.mp h2]

/-- If every value of the input is below the low boundary `0.01`, the
gate emits all of them. -/
theorem emitted_of_all_low (input : List ℚ) (hlow : ∀ v ∈ input, v < 1/100) :
    ∀ g : ProgressGate, emitted g input = input := by
  induction input with
  | nil => intro g; simp [emitted]
  | cons p ps ih =>
    intro g
    rw [emitted_cons, if_pos (Or.inl (hlow p (List.mem_cons_self p ps)))]
    rw [ih (fun v hv => hlow v (List.mem_cons_of_mem p hv)) ⟨p⟩]

end Throttle

/-- C4 counterexample: the claim fails on both counts.  Monotonicity: the
input `[1/2, 1/200]` is emitted in full (the second value is below the
`0.01` boundary, which always passes), giving a strictly decreasing
emitted sequence.  Boundedness: the 102 pairwise-distinct inputs
`k/20000` for `k < 102` all lie below `0.01`, so all 102 are emitted —
more than 101 distinct values in `[0, 1]`. -/
theorem C4_gate_counterexample :
    ¬ List.Sorted (· ≤ ·) (Throttle.emitted ⟨0⟩ [1/2, 1/200]) ∧
    101 < ((Throttle.emitted ⟨0⟩
        ((List.range 102).map (fun k : ℕ => (k : ℚ) / 20000))).dedup.length) := by
  constructor
  · have he : Throttle.emitted ⟨0⟩ [1/2, 1/200] = [1/2, 1/200] := by
      rw [Throttle.emitted_cons]
      rw [if_neg (by norm_num), if_neg (by norm_num)]
      rw [Throttle.emitted_cons, if_pos (Or.inl (by norm_num))]
      rfl
    rw [he]
    intro hs
    have := List.rel_of_sorted_cons hs (1/200) (by simp)
    norm_num at this
  · have hlow : ∀ v ∈ (List.range 102).map (fun k : ℕ => (k : ℚ) / 20000),
        v < 1/100 := by
      intro v hv
      rcases List.mem_map.mp hv with ⟨k, hk, rfl⟩
      have hk' : (k : ℚ) ≤ 101 := by
        have := Nat.le_of_lt_succ (List.mem_range.mp hk)
        exact_mod_cast this
      rw [div_lt_iff₀ (by norm_num)]
      linarith
    rw [Throttle.emitted_of_all_low _ hlow]
    have hnd : ((List.range 102).map (fun k : ℕ => (k : ℚ) / 20000)).Nodup := by
      refine List.Nodup.map ?_ (List.nodup_range 102)
      intro a b hab
      have hab' : (a : ℚ) = b := by
        field_simp at hab
        exact_mod_cast hab
      exact_mod_cast hab'
    rw [List.Nodup.dedup hnd, List.length_map, List.length_range]
    norm_num

/-- C4 amended: for every starting gate value and input sequence, each
emitted value is below `0.01`, at or above `0.99`, or at least `0.01`
greater than the previously emitted value; and for a non-decreasing input
sequence the emitted subsequence is non-decreasing (it is a sublist of
the input). -/
theorem C4_gate_emissions (l : ℚ) (input : List ℚ) :
    List.Chain (fun a b => b < 1/100 ∨ 99/100 ≤ b ∨ a + 1/100 ≤ b) l
      (Throttle.emitted ⟨l⟩ input) ∧
    (List.Sorted (· ≤ ·) input →
      List.Sorted (· ≤ ·) (Throttle.emitted ⟨l⟩ input)) :=
  ⟨Throttle.emitted_chain input l,
    fun hs => List.Pairwise.sublist (Throttle.emitted_sublist input ⟨l⟩) hs⟩

/-- C4 witness: the amended statement evaluated on the sorted input
`[0, 1]` from a fresh gate. -/
theorem C4_gate_emissions_witness :
    List.Chain (fun a b => b < 1/100 ∨ 99/100 ≤ b ∨ a + 1/100 ≤ b) 0
      (Throttle.emitted ⟨0⟩ [0, 1]) ∧
    List.Sorted (· ≤ ·) (Throttle.emitted ⟨0⟩ [0, 1]) :=
  ⟨(C4_gate_emissions 0 [0, 1]).1,
    (C4_gate_emissions 0 [0, 1]).2 (by simp [List.sorted_cons])⟩

/-! ## `internal/download` — streaming download to a temp file

`DownloadTemp` and `downloadFile` from the download package
(src/unnamed/part_011).  The HTTP exchange is modelled by an environment
carrying the offline flag, the cancellation flag and the response for the
requested URL; SHA-256 hashing (`ioutil.VerifySHA256`) is an opaque
function parameter. -/

namespace Download

/-- Result of `client.Do`: a response with status and body, or a
transport error. -/
inductive HttpOutcome
  | response (status : Nat) (body : List Nat)
  | netError (msg : String)
deriving DecidableEq, Repr

/-- The effectful context a download runs in. -/
structure Env where
  offline : Bool
  cancelled : Bool
  outcome : HttpOutcome
deriving DecidableEq, Repr

/-- Errors of the download path. -/
inductive DlError
  | offline
  | canceled
  | netError (msg : String)
  | badStatus (status : Nat)
  | hashMismatch
deriving DecidableEq, Repr

/-- Go `path.Base` (slash-separated paths). -/
def pathBase (s : String) : String :=
  if s = "" then "."
  else
    let l := (s.data.reverse.dropWhile (· = '/')).reverse
    let l2 := (l.reverse.takeWhile (· ≠ '/')).reverse
    if l2 = [] then "/" else String.mk l2

/-- `download.base`: the filename of a URL, query parameters stripped. -/
def base (url : String) : String :=
  pathBase (String.mk (url.data.takeWhile (· ≠ '?')))

/-- `download.downloadFile`: offline check, then the HTTP exchange.  A
404 returns success before reading the body (leaving the file empty); any
other non-200 status is an error; for a 200 the body is copied, checking
cancellation at chunk boundaries (modelled as a single pre-copy check). -/
def downloadFile (env : Env) : Except DlError (List Nat) :=
  if env.offline then .error .offline
  else
    match env.outcome with
    | .netError m => .error (.netError m)
    | .response status body =>
      if status = 404 then .ok []
      else if status ≠ 200 then .error (.badStatus status)
      else if env.cancelled then .error .canceled
      else .ok body

/-- Outcome of `DownloadTemp`: the returned path or error, the bytes left
in the temp file, and whether the deferred cleanup removed the file. -/
structure TempResult where
  result : Except DlError String
  content : List Nat
  tempRemoved : Bool
deriving DecidableEq, Repr

/-- `download.DownloadTemp`: create `dir/dl-*-<base url>`, download into
it, verify the SHA-256 when one is expected, and remove the temp file on
every failure path (`success` stays false). -/
def DownloadTemp (hash : List Nat → String) (env : Env) (dir url sha256 : String) :
    TempResult :=
  let tempName := dir ++ "/dl-*-" ++ base url
  match downloadFile env with
  | .error e => ⟨.error e, [], true⟩
  | .ok content =>
    if sha256 ≠ "" ∧ hash content ≠ sha256 then ⟨.error .hashMismatch, content, true⟩
    else ⟨.ok tempName, content, false⟩

end Download

/-- C5 counterexample: a 404 response is *not* treated as a success when
a checksum is expected — the zero-byte file fails verification, the call
errors and the temp file is removed, contradicting "for every URL,
DownloadTemp treats an HTTP 404 response as success". -/
theorem C5_download404_counterexample :
    Download.DownloadTemp (fun _ => "00") ⟨false, false, .response 404 []⟩
        "/cache" "https://patches.example/p.pwr" "deadbeef" =
      ⟨.error .hashMismatch, [], true⟩ := by
  decide

/-- C5 amended: when not offline, `DownloadTemp` treats a 404 as an empty
success — returning the temp path of a zero-byte file — provided no
checksum is expected (or the expected checksum is that of the empty
file); every other non-200 status fails with an error; and on any failure
the temp file is removed. -/
theorem C5_download_status (hash : List Nat → String) (cancelled : Bool)
    (status : Nat) (body : List Nat) (dir url sha256 : String) :
    (status = 404 → (sha256 = "" ∨ sha256 = hash []) →
      Download.DownloadTemp hash ⟨false, cancelled, .response status body⟩ dir url sha256 =
        ⟨.ok (dir ++ "/dl-*-" ++ Download.base url), [], false⟩) ∧
    (status ≠ 404 → status ≠ 200 →
      Download.DownloadTemp hash ⟨false, cancelled, .response status body⟩ dir url sha256 =
        ⟨.error (.badStatus status), [], true⟩) ∧
    (∀ e, (Download.DownloadTemp hash ⟨false, cancelled, .response status body⟩
        dir url sha256).result = .error e →
      (Download.DownloadTemp hash ⟨false, cancelled, .response status body⟩
        dir url sha256).tempRemoved = true) := by
  refine ⟨?_, ?_, ?_⟩
  · intro h404 hsha
    have hdl : Download.downloadFile ⟨false, cancelled, .response status body⟩ = .ok [] := by
      simp [Download.downloadFile, h404]
    have hver : ¬ (sha256 ≠ "" ∧ hash [] ≠ sha256) := by
      rcases hsha with h | h
      · intro hc; exact hc.1 h
      · intro hc; exact hc.2 h.symm
    simp [Download.DownloadTemp, hdl, hver]
  · intro h404 h200
    have hdl : Download.downloadFile ⟨false, cancelled, .response status body⟩ =
        .error (.badStatus status) := by
      simp [Download.downloadFile, h404, h200]
    simp [Download.DownloadTemp, hdl]
  · intro e he
    unfold Download.DownloadTemp at he ⊢
    rcases hdl : Download.downloadFile ⟨false, cancelled, .response status body⟩ with e' | c
    · simp [hdl]
    · rw [hdl] at he
      simp only at he ⊢
      by_cases hver : sha256 ≠ "" ∧ hash c ≠ sha256
      · simp [hver]
      · rw [if_neg hver] at he
        cases he

/-- C5 witness: the amended statement evaluated on a 404 with no expected
checksum and on a 500. -/
theorem C5_download_status_witness :
    Download.DownloadTemp (fun _ => "00") ⟨false, false, .response 404 []⟩
        "/cache" "https://patches.example/p.pwr" "" =
      ⟨.ok ("/cache" ++ "/dl-*-" ++ Download.base "https://patches.example/p.pwr"),
        [], false⟩ ∧
    Download.DownloadTemp (fun _ => "00") ⟨false, false, .response 500 []⟩
        "/cache" "https://patches.example/p.pwr" "" =
      ⟨.error (.badStatus 500), [], true⟩ :=
  ⟨(C5_download_status (fun _ => "00") false 404 [] "/cache"
      "https://patches.example/p.pwr" "").1 rfl (Or.inl rfl),
    (C5_download_status (fun _ => "00") false 500 [] "/cache"
      "https://patches.example/p.pwr" "").2.1 (by decide) (by decide)⟩

/-! ## `internal/ioutil.Get`, `download.downloadFile`, `repair.RepairFile`
request construction and `hytale.SetUserAgent`

Requests are header lists; `http.NewRequest` creates a request with no
headers.  `hytale.SetUserAgent` is the only place the identifying headers
are set. -/

namespace Http

/-- An outbound HTTP request: method, URL and headers. -/
structure Request where
  method : String
  url : String
  headers : List (String × String)
deriving DecidableEq, Repr

/-- `http.NewRequest` / `http.NewRequestWithContext`: a fresh request
with an empty header map. -/
def httpNewRequest (method url : String) : Request :=
  ⟨method, url, []⟩

/-- `req.Header.Get`. -/
def headerGet (r : Request) (k : String) : Option String :=
  (r.headers.find? (fun kv => kv.1 == k)).map (·.2)

/-- `req.Header.Set`: replace any previous value for the key. -/
def headerSet (r : Request) (k v : String) : Request :=
  ⟨r.method, r.url, (k, v) :: r.headers.filter (fun kv => !(kv.1 == k))⟩

/-- `url.Values.Encode`, simplified to key=value pairs joined by `&`. -/
def encodeParams (params : List (String × String)) : String :=
  String.intercalate "&" (params.map (fun kv => kv.1 ++ "=" ++ kv.2))

/-- The request built by `ioutil.Get` (get.go): append the encoded query
when parameters are present and create a GET request.  No identifying
headers are set before `client.Do`. -/
def ioutilGetRequest (urlStr : String) (params : List (String × String)) : Request :=
  httpNewRequest "GET"
    (if params.length > 0 then urlStr ++ "?" ++ encodeParams params else urlStr)

/-- The request built by `download.downloadFile` (part_011). -/
def downloadRequest (url : String) : Request :=
  httpNewRequest "GET" url

/-- The request built by `repair.RepairFile` (repair.go). -/
def repairRequest (downloadURL : String) : Request :=
  httpNewRequest "GET" downloadURL

/-- `build.UserAgent` (part_014). -/
def buildUserAgent (release version : String) : String :=
  if release = "release" then "hytale-launcher/" ++ version
  else "hytale-launcher/" ++ release ++ "/" ++ version

/-- `hytale.SetUserAgent` (part_006): set the three identifying headers
on a request. -/
def SetUserAgent (release version : String) (req : Request) : Request :=
  headerSet
    (headerSet
      (headerSet req "User-Agent" (buildUserAgent release version))
      "X-Hytale-Launcher-Version" version)
    "X-Hytale-Launcher-Branch" release

end Http

/-- C6: the three request builders used by the launcher — the JSON GET of
`ioutil.Get`, the streaming download of `download.downloadFile` and the
repair download of `repair.RepairFile` — construct their requests with no
headers at all, and in particular without `User-Agent`,
`X-Hytale-Launcher-Version` or `X-Hytale-Launcher-Branch`; the helper
`hytale.SetUserAgent`, which would add exactly those headers, is called
by none of them (it has no callers in the launcher), as evaluated here on
a concrete manifest request. -/
theorem C6_identifying_headers_missing :
    (∀ url params, (Http.ioutilGetRequest url params).headers = []) ∧
    (∀ url, (Http.downloadRequest url).headers = []) ∧
    (∀ url, (Http.repairRequest url).headers = []) ∧
    (Http.headerGet (Http.ioutilGetRequest "https://example.com/manifest.json" [])
        "User-Agent" = none ∧
      Http.headerGet (Http.ioutilGetRequest "https://example.com/manifest.json" [])
        "X-Hytale-Launcher-Version" = none ∧
      Http.headerGet (Http.ioutilGetRequest "https://example.com/manifest.json" [])
        "X-Hytale-Launcher-Branch" = none) ∧
    (Http.headerGet
        (Http.SetUserAgent "release" "1.0"
          (Http.ioutilGetRequest "https://example.com/manifest.json" []))
        "User-Agent" = some "hytale-launcher/1.0" ∧
      Http.headerGet
        (Http.SetUserAgent "release" "1.0"
          (Http.ioutilGetRequest "https://example.com/manifest.json" []))
        "X-Hytale-Launcher-Version" = some "1.0" ∧
      Http.headerGet
        (Http.SetUserAgent "release" "1.0"
          (Http.ioutilGetRequest "https://example.com/manifest.json" []))
        "X-Hytale-Launcher-Branch" = some "release") := by
  refine ⟨fun url params => ?_, fun url => rfl, fun url => rfl, by decide, by decide⟩
  unfold Http.ioutilGetRequest Http.httpNewRequest
  rfl

/-! ## `internal/auth` — token rotation persistence

`Controller.tokenChanged` and `watchTokenSource.Token` from
`internal/auth/auth.go`.  `time.Time` expiries are modelled as integer
timestamps; the account file is represented by the profile token last
persisted, plus the log of save causes. -/

namespace Auth

/-- `account.Token`: access token, refresh token and expiry. -/
structure Token where
  accessToken : String
  refreshToken : String
  expiry : Int
deriving DecidableEq, Repr

/-- `auth.tokenEqual`: access token, refresh token and expiry all
equal.  (Both tokens are non-nil in the refresh path modelled here.) -/
def tokenEqual (a b : Token) : Bool :=
  a.accessToken == b.accessToken
    && a.refreshToken == b.refreshToken
    && a.expiry == b.expiry

/-- The controller and watch-source state relevant to token rotation:
`watchTokenSource.prev`, the current profile's token (none when no
account or profile is set), the profile token last persisted to the
account file, and the causes of the saves performed. -/
structure AuthState where
  prev : Token
  profileToken : Option Token
  fileToken : Option Token
  saves : List String
deriving DecidableEq, Repr

/-- `Controller.tokenChanged`: no-op without a current profile; no-op
when the access/refresh pair is unchanged; otherwise store the new token
on the profile and save the account with cause `"token_changed"`. -/
def tokenChanged (s : AuthState) (newToken : Token) : AuthState :=
  match s.profileToken with
  | none => s
  | some oldToken =>
    if oldToken.accessToken == newToken.accessToken
        && oldToken.refreshToken == newToken.refreshToken then s
    else
      { s with
          profileToken := some newToken,
          fileToken := some newToken,
          saves := s.saves ++ ["token_changed"] }

/-- `watchTokenSource.Token` for a successful refresh yielding `t`: when
`t` differs from `prev` (in access, refresh or expiry), record it as the
new `prev` and invoke the `onChange` callback, which is
`Controller.tokenChanged`; the token is returned either way. -/
def watchToken (s : AuthState) (t : Token) : AuthState × Token :=
  if tokenEqual s.prev t then (s, t)
  else (tokenChanged { s with prev := t } t, t)

end Auth

/-- C7: with a current profile present and the watch source in sync with
it (same access/refresh pair, as established by `restore`), an observed
refresh yielding token `t` updates the profile token and saves the
account with cause `"token_changed"` exactly when the access/refresh pair
of `t` differs from the stored pair; a refresh with an identical pair
(even with a new expiry) leaves the stored profile token, the account
file and the save log unchanged. -/
theorem C7_token_rotation (s : Auth.AuthState) (p t : Auth.Token)
    (hp : s.profileToken = some p)
    (hsync : s.prev.accessToken = p.accessToken ∧
      s.prev.refreshToken = p.refreshToken) :
    (¬ (t.accessToken = p.accessToken ∧ t.refreshToken = p.refreshToken) →
      (Auth.watchToken s t).1.profileToken = some t ∧
      (Auth.watchToken s t).1.fileToken = some t ∧
      (Auth.watchToken s t).1.saves = s.saves ++ ["token_changed"]) ∧
    ((t.accessToken = p.accessToken ∧ t.refreshToken = p.refreshToken) →
      (Auth.watchToken s t).1.profileToken = s.profileToken ∧
      (Auth.watchToken s t).1.fileToken = s.fileToken ∧
      (Auth.watchToken s t).1.saves = s.saves) := by
  by_cases heq : Auth.tokenEqual s.prev t = true
  · have hw : Auth.watchToken s t = (s, t) := by
      simp [Auth.watchToken, heq]
    have hpair : t.accessToken = p.accessToken ∧ t.refreshToken = p.refreshToken := by
      simp only [Auth.tokenEqual, Bool.and_eq_true, beq_iff_eq] at heq
      exact ⟨heq.1.1 ▸ hsync.1, heq.1.2 ▸ hsync.2⟩
    exact ⟨fun hne => absurd hpair hne, fun _ => by rw [hw]; exact ⟨rfl, rfl, rfl⟩⟩
  · have hw : (Auth.watchToken s t).1 = Auth.tokenChanged { s with prev := t } t := by
      simp [Auth.watchToken, heq]
    constructor
    · intro hne
      have hcond : ¬ (p.accessToken == t.accessToken
          && p.refreshToken == t.refreshToken) = true := by
        simp only [Bool.and_eq_true, beq_iff_eq]
        intro hc
        exact hne ⟨hc.1.symm, hc.2.symm⟩
      rw [hw]
      simp [Auth.tokenChanged, hp, hcond]
    · intro hpair
      have hcond : (p.accessToken == t.accessToken
          && p.refreshToken == t.refreshToken) = true := by
        simp only [Bool.and_eq_true, beq_iff_eq]
        exact ⟨hpair.1.symm, hpair.2.symm⟩
      rw [hw]
      simp [Auth.tokenChanged, hp, hcond]

/-- C7 witness: a refresh with a rotated pair updates and saves; a
refresh changing only the expiry leaves profile, file and save log
untouched. -/
theorem C7_token_rotation_witness :
    ((Auth.watchToken ⟨⟨"a", "r", 0⟩, some ⟨"a", "r", 0⟩, some ⟨"a", "r", 0⟩, []⟩
        ⟨"a2", "r2", 5⟩).1.profileToken = some ⟨"a2", "r2", 5⟩ ∧
      (Auth.watchToken ⟨⟨"a", "r", 0⟩, some ⟨"a", "r", 0⟩, some ⟨"a", "r", 0⟩, []⟩
        ⟨"a2", "r2", 5⟩).1.fileToken = some ⟨"a2", "r2", 5⟩ ∧
      (Auth.watchToken ⟨⟨"a", "r", 0⟩, some ⟨"a", "r", 0⟩, some ⟨"a", "r", 0⟩, []⟩
        ⟨"a2", "r2", 5⟩).1.saves = [] ++ ["token_changed"]) ∧
    ((Auth.watchToken ⟨⟨"a", "r", 0⟩, some ⟨"a", "r", 0⟩, some ⟨"a", "r", 0⟩, []⟩
        ⟨"a", "r", 9⟩).1.profileToken = some ⟨"a", "r", 0⟩ ∧
      (Auth.watchToken ⟨⟨"a", "r", 0⟩, some ⟨"a", "r", 0⟩, some ⟨"a", "r", 0⟩, []⟩
        ⟨"a", "r", 9⟩).1.fileToken = some ⟨"a", "r", 0⟩ ∧
      (Auth.watchToken ⟨⟨"a", "r", 0⟩, some ⟨"a", "r", 0⟩, some ⟨"a", "r", 0⟩, []⟩
        ⟨"a", "r", 9⟩).1.saves = []) :=
  ⟨(C7_token_rotation ⟨⟨"a", "r", 0⟩, some ⟨"a", "r", 0⟩, some ⟨"a", "r", 0⟩, []⟩
      ⟨"a", "r", 0⟩ ⟨"a2", "r2", 5⟩ rfl (by decide)).1 (by decide),
    (C7_token_rotation ⟨⟨"a", "r", 0⟩, some ⟨"a", "r", 0⟩, some ⟨"a", "r", 0⟩, []⟩
      ⟨"a", "r", 0⟩ ⟨"a", "r", 9⟩ rfl (by decide)).2 (by decide)⟩

/-! ## `internal/repair` — verify

`verifyFile`, `Verify` and `Result.IsHealthy` from
`internal/repair/repair.go`.  The filesystem is a function from paths to
stat outcomes; hashing is folded into the stat outcome (a regular file
carries its SHA-256).  `FileStatus` is an `int` in Go, kept as `Nat`
here so that the unreachable `default` branch of `Verify`'s switch stays
representable. -/

namespace Repair

/-- What `os.Stat` plus hashing observe at a path. -/
inductive StatResult
  | notExist
  | statError (msg : String)
  | isDir
  | fileWithHash (hash : String)
deriving DecidableEq, Repr

/-- `repair.FileStatusOK` (iota 0). -/
def FileStatusOK : Nat := 0

/-- `repair.FileStatusMissing` (iota 1). -/
def FileStatusMissing : Nat := 1

/-- `repair.FileStatusCorrupted` (iota 2). -/
def FileStatusCorrupted : Nat := 2

/-- `repair.FileResult` (the `ActualHash` field is never set by
`verifyFile` and is omitted). -/
structure FileResult where
  path : String
  status : Nat
  expectedHash : String
  err : Option String
deriving DecidableEq, Repr

/-- `repair.Result`. -/
structure Result where
  totalFiles : Nat
  okFiles : Nat
  missingFiles : List FileResult
  corruptedFiles : List FileResult
  errorFiles : List FileResult
deriving DecidableEq, Repr

/-- `Result.IsHealthy`: no missing, corrupted or errored files. -/
def Result.IsHealthy (r : Result) : Bool :=
  r.missingFiles.length == 0
    && r.corruptedFiles.length == 0
    && r.errorFiles.length == 0

/-- `Result.NeedsRepair`. -/
def Result.NeedsRepair (r : Result) : Bool :=
  r.missingFiles.length > 0 || r.corruptedFiles.length > 0

/-- `repair.verifyFile`: not-exist is Missing; any other stat error is
Corrupted (with the error recorded); directories are OK; a regular file
is OK when its checksum matches and Corrupted otherwise. -/
def verifyFile (stat : StatResult) (relativePath expectedHash : String) : FileResult :=
  match stat with
  | .notExist => ⟨relativePath, FileStatusMissing, expectedHash, none⟩
  | .statError m => ⟨relativePath, FileStatusCorrupted, expectedHash, some m⟩
  | .isDir => ⟨relativePath, FileStatusOK, expectedHash, none⟩
  | .fileWithHash h =>
    if h == expectedHash then ⟨relativePath, FileStatusOK, expectedHash, none⟩
    else ⟨relativePath, FileStatusCorrupted, expectedHash, some "checksum mismatch"⟩

/-- One iteration of `Verify`'s loop: classify the entry's file result
into the matching bucket; the `default` branch collects results with an
unknown status and a non-nil error. -/
def verifyStep (fs : String → StatResult) (installDir : String)
    (r : Result) (entry : String × String) : Result :=
  let fileResult := verifyFile (fs (Filepath.join installDir entry.1)) entry.1 entry.2
  if fileResult.status == FileStatusOK then
    { r with okFiles := r.okFiles + 1 }
  else if fileResult.status == FileStatusMissing then
    { r with missingFiles := r.missingFiles ++ [fileResult] }
  else if fileResult.status == FileStatusCorrupted then
    { r with corruptedFiles := r.corruptedFiles ++ [fileResult] }
  else if fileResult.err.isSome then
    { r with errorFiles := r.errorFiles ++ [fileResult] }
  else r

/-- `repair.Verify`: reject an empty checksum map, then classify every
entry. -/
def Verify (fs : String → StatResult) (installDir : String)
    (checksums : List (String × String)) : Except String Result :=
  if checksums.isEmpty then .error "no checksums provided for verification"
  else .ok (checksums.foldl (verifyStep fs installDir)
    ⟨checksums.length, 0, [], [], []⟩)

theorem verifyStep_errorFiles (fs : String → StatResult) (installDir : String)
    (r : Result) (entry : String × String) :
    (verifyStep fs installDir r entry).errorFiles = r.errorFiles := by
  unfold verifyStep
  rcases fs (Filepath.join installDir entry.1) with _ | m | _ | h
  · rfl
  · rfl
  · rfl
  · dsimp only [verifyFile]
    by_cases hh : (h == entry.2) = true
    · simp only [if_pos hh]
      rfl
    · simp only [if_neg hh]
      rfl

theorem foldl_verifyStep_errorFiles (fs : String → StatResult) (installDir : String) :
    ∀ (checks : List (String × String)) (r : Result),
      (checks.foldl (verifyStep fs installDir) r).errorFiles = r.errorFiles := by
  intro checks
  induction checks with
  | nil => intro r; rfl
  | cons c cs ih =>
    intro r
    rw [List.foldl_cons, ih, verifyStep_errorFiles]

end Repair

/-- C9: for every filesystem, install directory and non-empty checksum
map, `Verify` succeeds and its `Result` has an empty `Errors` list —
`verifyFile` maps every outcome to OK, Missing or Corrupted, so the
switch's default branch never fires — and therefore `IsHealthy` holds
exactly when there are no missing and no corrupted files. -/
theorem C9_verify_no_errors (installDir : String)
    (fsys : String → Repair.StatResult) (checksums : List (String × String))
    (hne : checksums ≠ []) :
    ∃ r, Repair.Verify fsys installDir checksums = .ok r ∧
      r.errorFiles = [] ∧
      (r.IsHealthy = true ↔ (r.missingFiles = [] ∧ r.corruptedFiles = [])) := by
  refine ⟨checksums.foldl (Repair.verifyStep fsys installDir)
    ⟨checksums.length, 0, [], [], []⟩, ?_, ?_, ?_⟩
  · unfold Repair.Verify
    rw [if_neg (by simpa [List.isEmpty_iff] using hne)]
  · exact Repair.foldl_verifyStep_errorFiles fsys installDir checksums _
  · have herr := Repair.foldl_verifyStep_errorFiles fsys installDir checksums
      ⟨checksums.length, 0, [], [], []⟩
    unfold Repair.Result.IsHealthy
    rw [herr]
    simp [List.length_eq_zero]

/-- C9 witness: verifying one missing file against a one-entry checksum
map yields an ok result with no error entries, and health is equivalent
to having no missing and no corrupted files. -/
theorem C9_verify_no_errors_witness :
    ∃ r, Repair.Verify (fun _ => Repair.StatResult.notExist) "/install"
        [("a.txt", "h1")] = .ok r ∧
      r.errorFiles = [] ∧
      (r.IsHealthy = true ↔ (r.missingFiles = [] ∧ r.corruptedFiles = [])) :=
  C9_verify_no_errors "/install"
    (fun _ => Repair.StatResult.notExist) [("a.txt", "h1")] (by decide)

/-! ## `internal/selfupdate` — cleanup note consumption

`consumeCleanupNote` from `internal/selfupdate/cleanup.go`.  The data
directory is modelled by the two candidate note files
(`selfupdate.json`, preferred by `crypto.DatFile` when present, and
`selfupdate.dat`); decryption plus JSON decoding are folded into an
opaque `decode` parameter. -/

namespace SelfUpdate

/-- `selfupdate.cleanupNote`. -/
structure CleanupNote where
  channel : String
  version : String
deriving DecidableEq, Repr

/-- The note files present in the data directory. -/
structure NoteFS where
  jsonFile : Option (List Nat)
  datFile : Option (List Nat)
deriving DecidableEq, Repr

/-- `crypto.DatFile` applied to the note path: the `.json` file is
preferred when it exists. -/
def noteIsJson (fs : NoteFS) : Bool :=
  fs.jsonFile.isSome

/-- The content `crypto.ReadFile` reads for the note (before
decryption/decoding); `none` models `os.ErrNotExist`. -/
def noteFileContent (fs : NoteFS) : Option (List Nat) :=
  if noteIsJson fs then fs.jsonFile else fs.datFile

/-- The deferred `os.Remove(cleanupNoteFile())`: remove the selected note
file. -/
def removeNoteFile (fs : NoteFS) : NoteFS :=
  if noteIsJson fs then { fs with jsonFile := none }
  else { fs with datFile := none }

/-- `selfupdate.consumeCleanupNote`: read the note file; a missing file
is an empty success, a read/decode failure is an error; in every case the
deferred remove deletes the note file before returning. -/
def consumeCleanupNote (decode : List Nat → Except String CleanupNote)
    (fs : NoteFS) : Except String (Option CleanupNote) × NoteFS :=
  let res : Except String (Option CleanupNote) :=
    match noteFileContent fs with
    | none => .ok none
    | some data =>
      match decode data with
      | .ok note => .ok (some note)
      | .error e => .error e
  (res, removeNoteFile fs)

end SelfUpdate

/-- C10: every call to `consumeCleanupNote` removes the cleanup note file
it consulted — the preferred `.json` file when present, the `.dat` file
otherwise — regardless of whether reading or decoding succeeded; and in
the standard layout (no `.json` override) a note whose decode fails on
one start is gone on the next start, which then returns an empty success
instead of repeating the failure. -/
theorem C10_cleanup_note_consumed (decode : List Nat → Except String SelfUpdate.CleanupNote)
    (fs : SelfUpdate.NoteFS) :
    (SelfUpdate.noteIsJson fs = true →
      (SelfUpdate.consumeCleanupNote decode fs).2.jsonFile = none) ∧
    (SelfUpdate.noteIsJson fs = false →
      (SelfUpdate.consumeCleanupNote decode fs).2.datFile = none) ∧
    (fs.jsonFile = none → ∀ e,
      (SelfUpdate.consumeCleanupNote decode fs).1 = .error e →
      (SelfUpdate.consumeCleanupNote decode
        (SelfUpdate.consumeCleanupNote decode fs).2).1 = .ok none) := by
  refine ⟨?_, ?_, ?_⟩
  · intro hj
    simp [SelfUpdate.consumeCleanupNote, SelfUpdate.removeNoteFile, hj]
  · intro hj
    simp [SelfUpdate.consumeCleanupNote, SelfUpdate.removeNoteFile, hj]
  · intro hjson e herr
    have hj : SelfUpdate.noteIsJson fs = false := by
      simp [SelfUpdate.noteIsJson, hjson]
    have h2 : (SelfUpdate.consumeCleanupNote decode fs).2 =
        { fs with datFile := none } := by
      simp [SelfUpdate.consumeCleanupNote, SelfUpdate.removeNoteFile, hj]
    rw [h2]
    simp [SelfUpdate.consumeCleanupNote, SelfUpdate.noteFileContent,
      SelfUpdate.noteIsJson, hjson]

/-- C10 witness: a corrupt `.dat` note fails to decode on the first
start, is removed nonetheless, and the next start finds no note. -/
theorem C10_cleanup_note_consumed_witness :
    (SelfUpdate.consumeCleanupNote (fun _ => .error "bad json")
        ⟨none, some [1, 2, 3]⟩).2.datFile = none ∧
    (SelfUpdate.consumeCleanupNote (fun _ => .error "bad json")
      (SelfUpdate.consumeCleanupNote (fun _ => .error "bad json")
        ⟨none, some [1, 2, 3]⟩).2).1 = .ok none :=
  ⟨(C10_cleanup_note_consumed (fun _ => .error "bad json")
      ⟨none, some [1, 2, 3]⟩).2.1 rfl,
    (C10_cleanup_note_consumed (fun _ => .error "bad json")
      ⟨none, some [1, 2, 3]⟩).2.2 rfl "bad json" rfl⟩

/-! ## SHA-1 and `uuid.NewSHA1` — the UUIDv5 machinery

`internal/playerprofile` generates offline UUIDs through
`uuid.NewSHA1(namespace, data)` from github.com/google/uuid, which hashes
`namespace ++ data` with SHA-1, truncates to 16 bytes and stamps the
version (5) and RFC-4122 variant bits.  SHA-1 (Go `crypto/sha1`) is
implemented here in full on byte lists (`Nat`s below 256); 32-bit words
are `Nat`s reduced mod `2^32`. -/

namespace Sha1

/-- Truncate to 32 bits. -/
def w32 (x : Nat) : Nat := x % 4294967296

/-- 32-bit left rotation (argument below `2^32`). -/
def rotl (n x : Nat) : Nat :=
  w32 (x <<< n) ||| (x >>> (32 - n))

/-- Big-endian 32-bit word from four bytes. -/
def wordOfBytes (a b c d : Nat) : Nat :=
  ((a * 256 + b) * 256 + c) * 256 + d

/-- Big-endian bytes of a 32-bit word. -/
def bytesBE4 (n : Nat) : List Nat :=
  [(n >>> 24) % 256, (n >>> 16) % 256, (n >>> 8) % 256, n % 256]

/-- Big-endian bytes of the 64-bit message bit length. -/
def bytesBE8 (n : Nat) : List Nat :=
  [(n >>> 56) % 256, (n >>> 48) % 256, (n >>> 40) % 256, (n >>> 32) % 256,
    (n >>> 24) % 256, (n >>> 16) % 256, (n >>> 8) % 256, n % 256]

/-- Group bytes into big-endian 32-bit words. -/
def toWords : List Nat → List Nat
  | a :: b :: c :: d :: rest => wordOfBytes a b c d :: toWords rest
  | _ => []

/-- Merkle–Damgård padding: `0x80`, zeros to 56 mod 64, then the 64-bit
big-endian bit length. -/
def pad (msg : List Nat) : List Nat :=
  msg ++ 128 :: List.replicate ((55 - msg.length % 64 + 64) % 64) 0
    ++ bytesBE8 (msg.length * 8)

/-- Split into 64-byte blocks (fuel-based recursion so that the kernel
can evaluate it; the fuel is an upper bound on the block count). -/
def toBlocksAux : Nat → List Nat → List (List Nat)
  | 0, _ => []
  | _, [] => []
  | fuel + 1, l => l.take 64 :: toBlocksAux fuel (l.drop 64)

/-- Split into 64-byte blocks. -/
def toBlocks (l : List Nat) : List (List Nat) :=
  toBlocksAux l.length l

/-- Extend 16 message words to the 80-word schedule. -/
def extendTo80 (ws : List Nat) : List Nat :=
  (List.range 80).foldl
    (fun acc i =>
      if i < 16 then acc ++ [ws.getD i 0]
      else acc ++ [rotl 1 (Nat.xor
        (Nat.xor (acc.getD (i - 3) 0) (acc.getD (i - 8) 0))
        (Nat.xor (acc.getD (i - 14) 0) (acc.getD (i - 16) 0)))])
    []

/-- The five working registers. -/
structure H5 where
  a : Nat
  b : Nat
  c : Nat
  d : Nat
  e : Nat
deriving DecidableEq, Repr

/-- The SHA-1 round function for round `i`. -/
def roundF (i b c d : Nat) : Nat :=
  if i < 20 then Nat.lor (Nat.land b c) (Nat.land (Nat.xor b 4294967295) d)
  else if i < 40 then Nat.xor (Nat.xor b c) d
  else if i < 60 then
    Nat.lor (Nat.lor (Nat.land b c) (Nat.land b d)) (Nat.land c d)
  else Nat.xor (Nat.xor b c) d

/-- The SHA-1 round constant for round `i`. -/
def roundK (i : Nat) : Nat :=
  if i < 20 then 0x5A827999
  else if i < 40 then 0x6ED9EBA1
  else if i < 60 then 0x8F1BBCDC
  else 0xCA62C1D6

/-- Compress one 64-byte block into the running state. -/
def processBlock (h : H5) (block : List Nat) : H5 :=
  let ws := extendTo80 (toWords block)
  let r := (List.range 80).foldl
    (fun (st : H5) i =>
      ⟨w32 (rotl 5 st.a + roundF i st.b st.c st.d + st.e + roundK i + ws.getD i 0),
        st.a, rotl 30 st.b, st.c, st.d⟩)
    h
  ⟨w32 (h.a + r.a), w32 (h.b + r.b), w32 (h.c + r.c),
    w32 (h.d + r.d), w32 (h.e + r.e)⟩

/-- SHA-1 of a byte list: 20 output bytes. -/
def sha1 (msg : List Nat) : List Nat :=
  let hf := (toBlocks (pad msg)).foldl processBlock
    ⟨0x67452301, 0xEFCDAB89, 0x98BADCFE, 0x10325476, 0xC3D2E1F0⟩
  bytesBE4 hf.a ++ bytesBE4 hf.b ++ bytesBE4 hf.c ++ bytesBE4 hf.d ++ bytesBE4 hf.e

end Sha1

namespace Uuid

/-- `uuid.NewHash` truncation and bit stamping for version 5: copy the
first 16 hash bytes, then `uuid[6] = (uuid[6] & 0x0f) | (5 << 4)` and
`uuid[8] = (uuid[8] & 0x3f) | 0x80`.  (SHA-1 always supplies at least 16
bytes; shorter inputs are returned unchanged.) -/
def uuidFromHash : List Nat → List Nat
  | b0 :: b1 :: b2 :: b3 :: b4 :: b5 :: b6 :: b7 :: b8 :: b9 :: b10 :: b11 ::
      b12 :: b13 :: b14 :: b15 :: _ =>
    [b0, b1, b2, b3, b4, b5, (b6 &&& 0x0f) ||| (5 <<< 4), b7,
      (b8 &&& 0x3f) ||| 0x80, b9, b10, b11, b12, b13, b14, b15]
  | l => l

/-- `uuid.NewSHA1(space, data)`: UUID version 5 over SHA-1 of
`space ++ data`. -/
def uuidNewSHA1 (space data : List Nat) : List Nat :=
  uuidFromHash (Sha1.sha1 (space ++ data))

/-- Lowercase hex digit. -/
def hexDigit (n : Nat) : Char :=
  "0123456789abcdef".data.getD n '0'

/-- Two lowercase hex digits of a byte. -/
def byteHex (b : Nat) : List Char :=
  [hexDigit (b / 16), hexDigit (b % 16)]

/-- `UUID.String()`: 8-4-4-4-12 lowercase hex. -/
def uuidToString (u : List Nat) : String :=
  String.mk (((u.take 4).map byteHex).flatten
    ++ '-' :: (((u.drop 4).take 2).map byteHex).flatten
    ++ '-' :: (((u.drop 6).take 2).map byteHex).flatten
    ++ '-' :: (((u.drop 8).take 2).map byteHex).flatten
    ++ '-' :: ((u.drop 10).map byteHex).flatten)

end Uuid

/-! ## `internal/playerprofile` — offline player UUIDs -/

namespace PlayerProfile

/-- UTF-8 encoding of a code point (Go's `[]byte(string)`). -/
def utf8Bytes (c : Nat) : List Nat :=
  if c < 128 then [c]
  else if c < 2048 then [192 + c / 64, 128 + c % 64]
  else if c < 65536 then [224 + c / 4096, 128 + (c / 64) % 64, 128 + c % 64]
  else [240 + c / 262144, 128 + (c / 4096) % 64, 128 + (c / 64) % 64, 128 + c % 64]

/-- UTF-8 bytes of a string. -/
def strBytes (s : String) : List Nat :=
  (s.data.map (fun ch => utf8Bytes ch.toNat)).flatten

/-- `playerprofile.PlayerProfile`. -/
structure PlayerProfile where
  name : String
  uuid : String
  createdAt : String
deriving DecidableEq, Repr

/-- `playerprofile.Manager` (its profiles map, as an association list). -/
structure Manager where
  profiles : List (String × PlayerProfile)
deriving DecidableEq, Repr

/-- Map lookup `m.profiles[playerName]`. -/
def lookup (m : Manager) (playerName : String) : Option PlayerProfile :=
  (m.profiles.find? (fun kv => kv.1 == playerName)).map (·.2)

/-- `getTodayISO8601` (the source returns a fixed timestamp). -/
def getTodayISO8601 : String := "2026-01-15T00:00:00Z"

/-- `uuid.MustParse("6ba7b810-9dad-11d1-80b4-00c04fd430c8")` — the DNS
namespace UUID used as the fixed Hytale player namespace. -/
def hytaleNamespace : List Nat :=
  [0x6b, 0xa7, 0xb8, 0x10, 0x9d, 0xad, 0x11, 0xd1,
    0x80, 0xb4, 0x00, 0xc0, 0x4f, 0xd4, 0x30, 0xc8]

/-- `Manager.GetOrCreateProfile`: return the stored profile when one
exists; otherwise derive the UUID as `uuid.NewSHA1(namespace, name)`,
store the new profile and save (persistence is the updated map). -/
def GetOrCreateProfile (m : Manager) (playerName : String) :
    PlayerProfile × Manager :=
  match lookup m playerName with
  | some profile => (profile, m)
  | none =>
    let playerUUID :=
      Uuid.uuidToString (Uuid.uuidNewSHA1 hytaleNamespace (strBytes playerName))
    let profile : PlayerProfile := ⟨playerName, playerUUID, getTodayISO8601⟩
    (profile, ⟨m.profiles ++ [(playerName, profile)]⟩)

/-- `Manager.GetUUID`. -/
def GetUUID (m : Manager) (playerName : String) : String × Manager :=
  ((GetOrCreateProfile m playerName).1.uuid, (GetOrCreateProfile m playerName).2)

end PlayerProfile

/-- Any value below 16 or-ed with `0x50` has high nibble 5. -/
theorem lowNibble_or_80 : ∀ y ≤ 15, (y ||| 80) / 16 = 5 := by decide

/-- Any value below 64 or-ed with `0x80` has top two bits `10`. -/
theorem low6_or_128 : ∀ y ≤ 63, (y ||| 128) / 64 = 2 := by decide

/-- The stamped bytes of `uuid.NewSHA1`: byte 6 carries version 5 in its
high nibble and byte 8 carries the RFC-4122 variant in its top bits. -/
theorem uuidNewSHA1_version_variant (space data : List Nat) :
    (Uuid.uuidNewSHA1 space data).getD 6 0 / 16 = 5 ∧
    (Uuid.uuidNewSHA1 space data).getD 8 0 / 64 = 2 := by
  have h6 : (Uuid.uuidNewSHA1 space data).getD 6 0 =
      (((Sha1.sha1 (space ++ data)).getD 6 0) &&& 15) ||| 80 := rfl
  have h8 : (Uuid.uuidNewSHA1 space data).getD 8 0 =
      (((Sha1.sha1 (space ++ data)).getD 8 0) &&& 63) ||| 128 := rfl
  constructor
  · rw [h6]; exact lowNibble_or_80 _ Nat.and_le_right
  · rw [h8]; exact low6_or_128 _ Nat.and_le_right

/-- C8: for every player name `n` with no pre-existing stored profile,
`GetUUID` returns the string of `uuid.NewSHA1(DNS-namespace, n)` — a UUID
whose byte 6 carries version 5 and whose byte 8 carries the RFC-4122
variant — so two calls with the same name in different installs (any two
managers without a stored profile for `n`) return the same UUID. -/
theorem C8_offline_uuid (m₁ m₂ : PlayerProfile.Manager) (n : String)
    (h₁ : PlayerProfile.lookup m₁ n = none)
    (h₂ : PlayerProfile.lookup m₂ n = none) :
    (PlayerProfile.GetUUID m₁ n).1 =
      Uuid.uuidToString (Uuid.uuidNewSHA1 PlayerProfile.hytaleNamespace
        (PlayerProfile.strBytes n)) ∧
    (PlayerProfile.GetUUID m₁ n).1 = (PlayerProfile.GetUUID m₂ n).1 ∧
    (Uuid.uuidNewSHA1 PlayerProfile.hytaleNamespace
        (PlayerProfile.strBytes n)).getD 6 0 / 16 = 5 ∧
    (Uuid.uuidNewSHA1 PlayerProfile.hytaleNamespace
        (PlayerProfile.strBytes n)).getD 8 0 / 64 = 2 := by
  have g1 : (PlayerProfile.GetUUID m₁ n).1 =
      Uuid.uuidToString (Uuid.uuidNewSHA1 PlayerProfile.hytaleNamespace
        (PlayerProfile.strBytes n)) := by
    simp [PlayerProfile.GetUUID, PlayerProfile.GetOrCreateProfile, h₁]
  have g2 : (PlayerProfile.GetUUID m₂ n).1 =
      Uuid.uuidToString (Uuid.uuidNewSHA1 PlayerProfile.hytaleNamespace
        (PlayerProfile.strBytes n)) := by
    simp [PlayerProfile.GetUUID, PlayerProfile.GetOrCreateProfile, h₂]
  exact ⟨g1, g1.trans g2.symm,
    (uuidNewSHA1_version_variant _ _).1, (uuidNewSHA1_version_variant _ _).2⟩

set_option maxRecDepth 100000 in
/-- C8 witness: two fresh installs (an empty manager and one holding an
unrelated profile) both map "alice" to the same UUIDv5; the concrete
value equals the RFC-4122 `uuid5(NAMESPACE_DNS, "alice")`. -/
theorem C8_offline_uuid_witness :
    ((PlayerProfile.GetUUID ⟨[]⟩ "alice").1 =
      Uuid.uuidToString (Uuid.uuidNewSHA1 PlayerProfile.hytaleNamespace
        (PlayerProfile.strBytes "alice")) ∧
    (PlayerProfile.GetUUID ⟨[]⟩ "alice").1 =
      (PlayerProfile.GetUUID ⟨[("bob", ⟨"bob", "u", "t"⟩)]⟩ "alice").1 ∧
    (Uuid.uuidNewSHA1 PlayerProfile.hytaleNamespace
        (PlayerProfile.strBytes "alice")).getD 6 0 / 16 = 5 ∧
    (Uuid.uuidNewSHA1 PlayerProfile.hytaleNamespace
        (PlayerProfile.strBytes "alice")).getD 8 0 / 64 = 2) ∧
    (PlayerProfile.GetUUID ⟨[]⟩ "alice").1 =
      "c2ef90b9-02bc-5d53-93cd-92652b6e1b41" :=
  ⟨C8_offline_uuid ⟨[]⟩ ⟨[("bob", ⟨"bob", "u", "t"⟩)]⟩ "alice" rfl rfl,
    by decide⟩

end Launcher
